import Mathlib

/-!
Shallow embedding of `src/letterboxd.js` (Letterboxd movie fetcher).

Strings are modelled as `List Char`.  The JavaScript regular expressions are
embedded as executable scanning functions that reproduce the engine's
leftmost-match and greedy/lazy backtracking behaviour for the concrete
patterns used by the source.  Recursive scans that walk a suffix of the
input carry a fuel argument; every recursive call strictly shortens the
remaining text, so fuel `length + 1` is always sufficient and keeps every
definition structurally recursive (hence kernel-computable).

The transport layer (`fetch`) is modelled by a `FetchResponse` record
(success flag plus body text) and, for pagination, by a function from page
numbers to responses.  Pagination results carry, as a second component, the
trace of page numbers that were actually requested.
-/

/-! ### Character classes of the JavaScript regex engine (non-unicode mode)

`\d` is `[0-9]`; `\w` is `[A-Za-z0-9_]`; `\s` is the JS whitespace set
(tab 9 .. CR 13, space 32, NBSP 160, U+1680, U+2000..U+200A, U+2028,
U+2029, U+202F, U+205F, U+3000, U+FEFF); `.` matches everything except the
four line terminators LF 10, CR 13, U+2028, U+2029. -/

def asciiDigit (c : Char) : Bool :=
  decide (48 ≤ c.toNat) && decide (c.toNat ≤ 57)

def wordChar (c : Char) : Bool :=
  (decide (65 ≤ c.toNat) && decide (c.toNat ≤ 90)) ||
  (decide (97 ≤ c.toNat) && decide (c.toNat ≤ 122)) ||
  asciiDigit c || c.toNat == 95

def jsWs (c : Char) : Bool :=
  (decide (9 ≤ c.toNat) && decide (c.toNat ≤ 13)) ||
  c.toNat == 32 || c.toNat == 160 || c.toNat == 5760 ||
  (decide (8192 ≤ c.toNat) && decide (c.toNat ≤ 8202)) ||
  c.toNat == 8232 || c.toNat == 8233 || c.toNat == 8239 ||
  c.toNat == 8287 || c.toNat == 12288 || c.toNat == 65279

def lineTerm (c : Char) : Bool :=
  c.toNat == 10 || c.toNat == 13 || c.toNat == 8232 || c.toNat == 8233

/-- Shorthand: the character list of a string literal. -/
def cs (s : String) : List Char := s.toList

/-- Split `s` around the first occurrence of the literal `pat`:
returns `(before, after)` with `s = before ++ pat ++ after` and no
occurrence of `pat` starting inside `before`. -/
def splitOnFirst (pat : List Char) : List Char → Option (List Char × List Char)
  | [] => if pat.isPrefixOf ([] : List Char) then some ([], []) else none
  | c :: rest =>
    if pat.isPrefixOf (c :: rest) then some ([], (c :: rest).drop pat.length)
    else (splitOnFirst pat rest).map (fun pr => (c :: pr.1, pr.2))

/-! ### TextNormalizer: entity decoder

`decodeHtmlEntities` embeds
`str.replace(/&#039;|&amp;|&lt;|&gt;|&quot;/g, m => entities[m])`:
a left-to-right scan replacing exactly the five listed entities, copying
every other character (all five patterns begin with `&`, so matches can
never overlap a copied character). -/

/-- One fuelled step per scan position: try the five alternatives in the
order they appear in the regex; on a match emit the replacement and resume
after the entity, otherwise copy the character.  Every step consumes at
least one character, so fuel equal to the length of the input is always
sufficient (the fuel-0 fallback is never reached from the wrapper). -/
def decodeEntF : Nat → List Char → List Char
  | 0, s => s
  | _ + 1, [] => []
  | fuel + 1, c :: rest =>
    if (cs "&#039;").isPrefixOf (c :: rest) then '\'' :: decodeEntF fuel (rest.drop 5)
    else if (cs "&amp;").isPrefixOf (c :: rest) then '&' :: decodeEntF fuel (rest.drop 4)
    else if (cs "&lt;").isPrefixOf (c :: rest) then '<' :: decodeEntF fuel (rest.drop 3)
    else if (cs "&gt;").isPrefixOf (c :: rest) then '>' :: decodeEntF fuel (rest.drop 3)
    else if (cs "&quot;").isPrefixOf (c :: rest) then '"' :: decodeEntF fuel (rest.drop 5)
    else c :: decodeEntF fuel rest

def decodeHtmlEntities (s : List Char) : List Char :=
  decodeEntF s.length s

/-! ### The Film record -/

structure Film where
  title : List Char
  year : Option (List Char)
  rating : Option (List Char)
  watchDate : Option (List Char)
  link : Option (List Char)
  rewatch : Bool
deriving DecidableEq, Repr

/-! ### FeedExtractor (`fetchRecentActivity` parsing part) -/

/-- `/<item>([\s\S]*?)<\/item>/g` exec loop: the bodies of the items, in
document order; an unclosed `<item>` yields no further items. -/
def itemsOfF (openPat closePat : List Char) : Nat → List Char → List (List Char)
  | 0, _ => []
  | fuel + 1, s =>
    match splitOnFirst openPat s with
    | none => []
    | some (_, afterOpen) =>
      match splitOnFirst closePat afterOpen with
      | none => []
      | some (body, rest) => body :: itemsOfF openPat closePat fuel rest

def itemsOf (xml : List Char) : List (List Char) :=
  itemsOfF (cs "<item>") (cs "</item>") (xml.length + 1) xml

/-- Lazy match `open(.*?)close` where `.` excludes line terminators:
try each occurrence of `openPat` from the left; at each, the capture is the
text up to the first following `closePat`, admissible only if it contains
no line terminator (otherwise no later `closePat` can help, and the scan
moves to the next occurrence of `openPat`). -/
def lazyNoNLF (openPat closePat : List Char) : Nat → List Char → Option (List Char)
  | 0, _ => none
  | fuel + 1, s =>
    match splitOnFirst openPat s with
    | none => none
    | some (_, after) =>
      match splitOnFirst closePat after with
      | none => none
      | some (cap, _) =>
        if cap.all (fun c => !lineTerm c) then some cap
        else lazyNoNLF openPat closePat fuel after

def lazyNoNL (openPat closePat s : List Char) : Option (List Char) :=
  lazyNoNLF openPat closePat (s.length + 1) s

/-- Lazy match `open([\s\S]*?)close`: first occurrence of `openPat`, then
capture up to the first following `closePat`. -/
def lazyAny (openPat closePat s : List Char) : Option (List Char) :=
  match splitOnFirst openPat s with
  | none => none
  | some (_, after) => (splitOnFirst closePat after).map (fun pr => pr.1)

/-- `item.match(/<title><!\[CDATA\[(.*?)\]\]><\/title>/) ||
     item.match(/<title>(.*?)<\/title>/)` -/
def feedTitleOf (item : List Char) : Option (List Char) :=
  match lazyNoNL (cs "<title><![CDATA[") (cs "]]></title>") item with
  | some t => some t
  | none => lazyNoNL (cs "<title>") (cs "</title>") item

/-- `item.match(/<link>(.*?)<\/link>/)` -/
def linkOf (item : List Char) : Option (List Char) :=
  lazyNoNL (cs "<link>") (cs "</link>") item

/-- `item.match(/<description><!\[CDATA\[([\s\S]*?)\]\]><\/description>/)` -/
def descOf (item : List Char) : Option (List Char) :=
  lazyAny (cs "<description><![CDATA[") (cs "]]></description>") item

/-- Checks that `s` is `\s*` followed by exactly four `\d` up to the end of
the string (the part of `/^(.+),\s*(\d{4})$/` after the comma):
since `\s` and `\d` are disjoint, the greedy `\s*` absorbs exactly the
leading whitespace run and the remainder must be exactly four digits. -/
def yearSuffixOk (s : List Char) : Bool :=
  (s.dropWhile jsWs).length == 4 && (s.dropWhile jsWs).all asciiDigit

/-- The backtracking search of `fullTitle.match(/^(.+),\s*(\d{4})$/)`:
the greedy `(.+)` selects the rightmost comma whose prefix is free of line
terminators (the chars `.` can match) and whose suffix is `\s*` plus four
digits; returns `(prefix, year digits)`, with an empty prefix meaning the
comma sits at position 0 (which `(.+)` then rules out at top level). -/
def splitAux : List Char → Option (List Char × List Char)
  | [] => none
  | c :: rest =>
    match splitAux rest with
    | some (pre, yr) => if lineTerm c then none else some (c :: pre, yr)
    | none =>
      if c = ',' && yearSuffixOk rest then some ([], rest.dropWhile jsWs)
      else none

/-- Title/year segmentation of `fetchRecentActivity` lines 41–44. -/
def splitTitleYear (fullTitle : List Char) : List Char × Option (List Char) :=
  match splitAux fullTitle with
  | some (pre, yr) => if pre = [] then (fullTitle, none) else (pre, some yr)
  | none => (fullTitle, none)

/-- `desc.match(/★+½?/)`: first (leftmost) position holding a star starts
the match; the greedy `★+` takes the maximal star run there, then `½?`
takes one half glyph if present. -/
def ratingMatch : List Char → Option (List Char)
  | [] => none
  | c :: rest =>
    if c = '★' then
      some ((c :: rest).takeWhile (fun x => x = '★') ++
        (if ((c :: rest).dropWhile (fun x => x = '★')).head? = some '½' then ['½'] else []))
    else ratingMatch rest

/-- Substring test (`String.prototype.includes`). -/
def containsSeq (pat : List Char) : List Char → Bool
  | [] => pat.isPrefixOf ([] : List Char)
  | c :: rest => pat.isPrefixOf (c :: rest) || containsSeq pat rest

/-- `desc.includes('Rewatched')` -/
def rewatchFlag (desc : List Char) : Bool :=
  containsSeq (cs "Rewatched") desc

/-- The part of `/Watched on\s+\w+\s+(\w+\s+\d+,\s+\d{4})/` after the
literal `Watched on`.  Every `+`-class is greedy; adjacent classes are
disjoint (`\s` vs `\w`/`\d`), so each takes its maximal run and failure at
any step is final for this occurrence of the literal. -/
def dateAfter (s : List Char) : Option (List Char) :=
  let s1 := s.dropWhile jsWs
  if (s.takeWhile jsWs).isEmpty then none else
  let s2 := s1.dropWhile wordChar
  if (s1.takeWhile wordChar).isEmpty then none else
  let ws2 := s2.takeWhile jsWs
  let s3 := s2.dropWhile jsWs
  if ws2.isEmpty then none else
  let w2 := s3.takeWhile wordChar
  let s4 := s3.dropWhile wordChar
  if w2.isEmpty then none else
  let ws3 := s4.takeWhile jsWs
  let s5 := s4.dropWhile jsWs
  if ws3.isEmpty then none else
  let d1 := s5.takeWhile asciiDigit
  let s6 := s5.dropWhile asciiDigit
  if d1.isEmpty then none else
  match s6 with
  | ',' :: s7 =>
    let ws4 := s7.takeWhile jsWs
    let s8 := s7.dropWhile jsWs
    if ws4.isEmpty then none else
    let y := s8.take 4
    if y.length == 4 && y.all asciiDigit then
      some (w2 ++ ws3 ++ d1 ++ ',' :: (ws4 ++ y))
    else none
  | _ => none

/-- `desc.match(/Watched on\s+\w+\s+(\w+\s+\d+,\s+\d{4})/)`: try each
occurrence of the literal `Watched on` from the left. -/
def watchDateOfF : Nat → List Char → Option (List Char)
  | 0, _ => none
  | fuel + 1, s =>
    match splitOnFirst (cs "Watched on") s with
    | none => none
    | some (_, after) =>
      match dateAfter after with
      | some cap => some cap
      | none => watchDateOfF fuel after

def watchDateOf (desc : List Char) : Option (List Char) :=
  watchDateOfF (desc.length + 1) desc

/-- One feed item to an optional Film (`fetchRecentActivity` lines 33–66):
an item with no title match is skipped. -/
def itemToFilm (item : List Char) : Option Film :=
  match feedTitleOf item with
  | none => none
  | some fullTitle =>
    let ty := splitTitleYear fullTitle
    some {
      title := ty.1
      year := ty.2
      rating := match descOf item with | some d => ratingMatch d | none => none
      watchDate := match descOf item with | some d => watchDateOf d | none => none
      link := linkOf item
      rewatch := match descOf item with | some d => rewatchFlag d | none => false }

/-- The parsing part of `fetchRecentActivity`: all items, skipped ones
dropped. -/
def parseFeed (xml : List Char) : List Film :=
  (itemsOf xml).filterMap itemToFilm

/-! ### Transport -/

/-- A transport response: HTTP success flag (`response.ok`) and body text
(`response.text()` succeeds for error responses as well). -/
structure FetchResponse where
  ok : Bool
  body : List Char
deriving DecidableEq, Repr

/-- `fetchRecentActivity`, given the transport's response for the feed URL.
The source never inspects `response.ok` and its body cannot throw, so the
call always resolves with the films parsed from `response.text()`;
`Except.error` (a rejected call) is never produced. -/
def fetchRecentActivity (resp : FetchResponse) : Except Unit (List Film) :=
  Except.ok (parseFeed resp.body)

/-! ### ListingExtractor (`parseFilmsPage`)

Pattern: `data-target-link="(\/film\/[^"]+\/)"[^>]*>[\s\S]*?<img[^>]*alt="([^"]+)"`,
run in a `g`-flag exec loop. -/

/-- The capture `(\/film\/[^"]+\/)` followed by `"`: the region up to the
first quote must start with `/film/`, end with `/`, and have at least one
character in between. -/
def filmLinkOk (pre : List Char) : Bool :=
  (cs "/film/").isPrefixOf pre && pre.getLast? == some '/' && decide (8 ≤ pre.length)

/-- Offsets inside `run` (the maximal `[^>]*` region) at which the literal
`alt="` occurs. -/
def altOffsets (run : List Char) : List Nat :=
  (List.range (run.length + 1)).filter (fun i => (cs "alt=\"").isPrefixOf (run.drop i))

/-- Try the `alt="([^"]+)"` tail at each offset (callers pass offsets in
backtracking order, i.e. rightmost first): the capture is the text up to
the next quote in the full remaining string (it may cross `>`), and must be
non-empty with a closing quote present.  Returns the capture and the text
after the closing quote (the end of the whole match). -/
def tryAlts (rest3 : List Char) : List Nat → Option (List Char × List Char)
  | [] => none
  | i :: more =>
    let t := rest3.drop (i + 5)
    let cap := t.takeWhile (fun c => c ≠ '"')
    if !cap.isEmpty && decide (cap.length < t.length) then
      some (cap, t.drop (cap.length + 1))
    else tryAlts rest3 more

/-- `[\s\S]*?<img[^>]*alt="([^"]+)"`: for each occurrence of `<img` from
the left, backtrack the greedy `[^>]*` from the right; on failure move to
the next `<img`. -/
def imgAltSearchF : Nat → List Char → Option (List Char × List Char)
  | 0, _ => none
  | fuel + 1, s =>
    match splitOnFirst (cs "<img") s with
    | none => none
    | some (_, rest3) =>
      match tryAlts rest3 ((altOffsets (rest3.takeWhile (fun c => c ≠ '>'))).reverse) with
      | some r => some r
      | none => imgAltSearchF fuel rest3

/-- The pattern tail after the literal `data-target-link="`: the link
capture up to the first quote, then `[^>]*>` (skip to the first `>`), then
the img/alt search.  Returns `(link, title, rest-after-match)`. -/
def attemptMatch (s : List Char) : Option (List Char × List Char × List Char) :=
  match splitOnFirst ['"'] s with
  | none => none
  | some (pre, afterQuote) =>
    if filmLinkOk pre then
      match splitOnFirst ['>'] afterQuote with
      | none => none
      | some (_, rest2) =>
        match imgAltSearchF (rest2.length + 1) rest2 with
        | some (title, rest) => some (pre, title, rest)
        | none => none
    else none

/-- The `g`-flag exec loop of `parseFilmsPage`: at each occurrence of the
literal `data-target-link="`, attempt the rest of the pattern; on success
push a Film and continue after the match, on failure continue at the next
occurrence. -/
def scanFilmsF : Nat → List Char → List Film
  | 0, _ => []
  | fuel + 1, s =>
    match splitOnFirst (cs "data-target-link=\"") s with
    | none => []
    | some (_, afterAnchor) =>
      match attemptMatch afterAnchor with
      | some (link, title, rest) =>
        { title := decodeHtmlEntities title
          year := none
          rating := none
          watchDate := none
          link := some (cs "https://letterboxd.com" ++ link)
          rewatch := false } :: scanFilmsF fuel rest
      | none => scanFilmsF fuel afterAnchor

def parseFilmsPage (html : List Char) : List Film :=
  scanFilmsF (html.length + 1) html

/-! ### PaginationDriver (`fetchWatchedFilms` / `fetchWatchlist`)

`paginateAux` embeds the `while (page <= ceiling)` loop.  The second
component of the result is the trace of page numbers for which a request
was issued (the source issues the request before inspecting the response).
Fuel equals the ceiling at the top-level call, which maintains
`page + fuel = ceiling + 1`, so fuel exhaustion coincides exactly with the
loop condition turning false. -/

def paginateAux (fetchPage : Nat → FetchResponse) (ceiling : Nat) :
    Nat → Nat → List Film × List Nat
  | _, 0 => ([], [])
  | page, fuel + 1 =>
    if page ≤ ceiling then
      let resp := fetchPage page
      if resp.ok then
        let pageFilms := parseFilmsPage resp.body
        if pageFilms.isEmpty then ([], [page])
        else
          let rest := paginateAux fetchPage ceiling (page + 1) fuel
          (pageFilms ++ rest.1, page :: rest.2)
      else ([], [page])
    else ([], [])

/-- `fetchWatchedFilms`: pages `https://letterboxd.com/<user>/films/page/N/`,
ceiling 50, given the transport as a function from page number to
response. -/
def fetchWatchedFilms (fetchPage : Nat → FetchResponse) : List Film × List Nat :=
  paginateAux fetchPage 50 1 50

/-- `fetchWatchlist`: pages `https://letterboxd.com/<user>/watchlist/page/N/`,
ceiling 20. -/
def fetchWatchlist (fetchPage : Nat → FetchResponse) : List Film × List Nat :=
  paginateAux fetchPage 20 1 20

/-! ### Spec-side definitions (used to state claims against the code) -/

/-- Stated from the spec's segmentation pattern: the title matches
`<text>, <4 digits>` at the end of the string, i.e. its last six
characters are a comma, a single space and four digits, with at least one
character of text before them. -/
def specEndsCommaSpaceYear (t : List Char) : Bool :=
  decide (7 ≤ t.length) &&
  (t.drop (t.length - 6)).take 2 == [',', ' '] &&
  ((t.drop (t.length - 6)).drop 2).all asciiDigit

/-- Tokens for stating the entity-decoder claim: a plain character (not an
ampersand), one of the five known entities (an index into `entityTable`),
or an unknown entity `&name;`. -/
inductive EntTok where
  | lit : Char → EntTok
  | known : Nat → EntTok
  | unknown : List Char → EntTok

/-- The five entities of `decodeHtmlEntities` and their replacements. -/
def entityTable : List (List Char × Char) :=
  [(cs "&#039;", '\''), (cs "&amp;", '&'), (cs "&lt;", '<'),
   (cs "&gt;", '>'), (cs "&quot;", '"')]

def renderTok : EntTok → List Char
  | .lit c => [c]
  | .known i => (entityTable.getD i ([], ' ')).1
  | .unknown name => '&' :: (name ++ [';'])

def decodeTok : EntTok → List Char
  | .lit c => [c]
  | .known i => [(entityTable.getD i ([], ' ')).2]
  | .unknown name => '&' :: (name ++ [';'])

/-- The five entity spellings recognised by the decoder. -/
def entityFive : List (List Char) :=
  [cs "&#039;", cs "&amp;", cs "&lt;", cs "&gt;", cs "&quot;"]

/-- Wellformedness of a token: a literal character is not an ampersand, a
known-entity index is in range, and an unknown entity has an
ampersand-free, semicolon-free name and is not one of the five known
spellings. -/
def validTok : EntTok → Bool
  | .lit c => c != '&'
  | .known i => decide (i < 5)
  | .unknown name =>
    name.all (fun c => c != '&' && c != ';') &&
    decide (('&' :: (name ++ [';'])) ∉ entityFive)

/-- The Amélie example from the spec, decomposed into tokens. -/
def amelieToks : List EntTok :=
  [.lit 'A', .lit 'm', .unknown (cs "eacute"), .lit 'l', .lit 'i', .lit 'e',
   .lit ' ', .known 1, .lit ' ', .lit 'F', .lit 'r', .lit 'i', .lit 'e',
   .lit 'n', .lit 'd', .lit 's']

/-- A transport for the pagination witness: pages 1 and 2 hold one film
each, every later page is a success with an empty body (which parses to no
films). -/
def c4Pages : Nat → FetchResponse :=
  fun p =>
    if p = 1 then ⟨true, cs "data-target-link=\"/film/film-a/\"><img alt=\"Film A\">"⟩
    else if p = 2 then ⟨true, cs "data-target-link=\"/film/film-b/\"><img alt=\"Film B\">"⟩
    else ⟨true, []⟩

/-! ### Helper lemmas -/

theorem paginateAux_req_le (f : Nat → FetchResponse) (c : Nat) :
    ∀ fuel page p, p ∈ (paginateAux f c page fuel).2 → p ≤ c := by
  intro fuel
  induction fuel with
  | zero => intro page p hp; simp [paginateAux] at hp
  | succ n ih =>
    intro page p hp
    by_cases hpc : page ≤ c
    · cases hfok : (f page).ok with
      | false => simp [paginateAux, hpc, hfok] at hp; omega
      | true =>
        cases hemp : (parseFilmsPage (f page).body).isEmpty with
        | true => simp [paginateAux, hpc, hfok, hemp] at hp; omega
        | false =>
          simp [paginateAux, hpc, hfok, hemp] at hp
          rcases hp with rfl | hp
          · exact hpc
          · exact ih (page + 1) p hp
    · simp [paginateAux, hpc] at hp

theorem paginateAux_run (f : Nat → FetchResponse) (c : Nat) :
    ∀ fuel page k, page ≤ k → k ≤ c → k < page + fuel →
    (∀ p, page ≤ p → p < k → ((f p).ok = true ∧ parseFilmsPage (f p).body ≠ [])) →
    ((f k).ok = false ∨ parseFilmsPage (f k).body = []) →
    paginateAux f c page fuel =
      (((List.range' page (k - page)).map (fun p => parseFilmsPage (f p).body)).flatten,
       List.range' page (k - page + 1)) := by
  intro fuel
  induction fuel with
  | zero => intro page k h1 h2 h3 _ _; omega
  | succ n ih =>
    intro page k h1 h2 h3 hok hstop
    rcases eq_or_lt_of_le h1 with rfl | hlt
    · have hpc : page ≤ c := h2
      rcases hstop with hfail | hempty
      · simp [paginateAux, hpc, hfail, List.range'_succ]
      · cases hfok : (f page).ok with
        | false => simp [paginateAux, hpc, hfok, List.range'_succ]
        | true =>
          simp [paginateAux, hpc, hfok, hempty, List.range'_succ]
    · obtain ⟨hpok, hpne⟩ := hok page le_rfl hlt
      have hpc : page ≤ c := le_trans (le_of_lt hlt) h2
      have ihr := ih (page + 1) k hlt h2 (by omega) (fun p hp1 hp2 => hok p (by omega) hp2) hstop
      have hne : (parseFilmsPage (f page).body).isEmpty = false := by
        rcases hpf : parseFilmsPage (f page).body with _ | ⟨a, l⟩
        · exact absurd hpf hpne
        · simp
      have hk1 : k - page = (k - (page + 1)) + 1 := by omega
      simp only [paginateAux, if_pos hpc, hpok, if_pos rfl, hne, ihr]
      rw [hk1]
      simp [List.range'_succ]

theorem starRun (k : Nat) (post : List Char) (h : post.head? ≠ some '★') :
    (List.replicate k '★' ++ post).takeWhile (fun x => x = '★') = List.replicate k '★' ∧
    (List.replicate k '★' ++ post).dropWhile (fun x => x = '★') = post := by
  induction k with
  | zero =>
    simp only [List.replicate, List.nil_append]
    cases post with
    | nil => exact ⟨rfl, rfl⟩
    | cons p l =>
      have hp : p ≠ '★' := by
        intro he
        exact h (by rw [he]; rfl)
      constructor
      · simp [List.takeWhile_cons, hp]
      · simp [List.dropWhile_cons, hp]
  | succ n ih =>
    simp only [List.replicate_succ, List.cons_append, List.takeWhile_cons,
      List.dropWhile_cons]
    simp [ih]

theorem ratingNone (d : List Char) (h : ∀ c ∈ d, c ≠ '★') : ratingMatch d = none := by
  induction d with
  | nil => rfl
  | cons c rest ih =>
    have hc : c ≠ '★' := h c (List.mem_cons_self c rest)
    simp only [ratingMatch, if_neg hc]
    exact ih (fun x hx => h x (List.mem_cons_of_mem c hx))

theorem digit_not_ws (c : Char) (h : asciiDigit c = true) : jsWs c = false := by
  simp only [asciiDigit, Bool.and_eq_true, decide_eq_true_eq] at h
  simp only [jsWs, Bool.or_eq_false_iff, Bool.and_eq_false_iff, decide_eq_false_iff_not,
    beq_eq_false_iff_ne, ne_eq]
  omega

theorem ws_not_comma (c : Char) (h : jsWs c = true) : c ≠ ',' := by
  intro he
  rw [he] at h
  exact absurd h (by decide)

theorem digit_not_comma (c : Char) (h : asciiDigit c = true) : c ≠ ',' := by
  intro he
  rw [he] at h
  exact absurd h (by decide)

theorem dropWhile_append_all (p : Char → Bool) (xs ys : List Char)
    (h : ∀ c ∈ xs, p c = true) : (xs ++ ys).dropWhile p = ys.dropWhile p := by
  induction xs with
  | nil => rfl
  | cons a l ih =>
    rw [List.cons_append, List.dropWhile_cons, if_pos (h a (List.mem_cons_self a l))]
    exact ih (fun c hc => h c (List.mem_cons_of_mem a hc))

theorem splitAux_no_comma (s : List Char) (h : ∀ c ∈ s, c ≠ ',') : splitAux s = none := by
  induction s with
  | nil => rfl
  | cons c rest ih =>
    have hr := ih (fun x hx => h x (List.mem_cons_of_mem c hx))
    have hc : c ≠ ',' := h c (List.mem_cons_self c rest)
    simp only [splitAux, hr]
    simp [hc]

theorem splitAux_complete (pre mid yr : List Char)
    (hmid : ∀ c ∈ mid, jsWs c = true) (hyr4 : yr.length = 4)
    (hyrd : ∀ c ∈ yr, asciiDigit c = true) (hpre : ∀ c ∈ pre, lineTerm c = false) :
    splitAux (pre ++ ',' :: (mid ++ yr)) = some (pre, yr) := by
  induction pre with
  | nil =>
    rw [List.nil_append]
    have hno : splitAux (mid ++ yr) = none := by
      apply splitAux_no_comma
      intro c hc
      rcases List.mem_append.mp hc with h1 | h2
      · exact ws_not_comma c (hmid c h1)
      · exact digit_not_comma c (hyrd c h2)
    have hdw : (mid ++ yr).dropWhile jsWs = yr := by
      rw [dropWhile_append_all jsWs mid yr hmid]
      cases yr with
      | nil => rfl
      | cons y l =>
        have hy : jsWs y = false :=
          digit_not_ws y (hyrd y (List.mem_cons_self y l))
        simp [List.dropWhile_cons, hy]
    have hys : yearSuffixOk (mid ++ yr) = true := by
      rw [yearSuffixOk, hdw, hyr4]
      simp only [beq_self_eq_true, Bool.true_and, List.all_eq_true]
      exact hyrd
    simp only [splitAux, hno]
    simp [hys, hdw]
  | cons p pres ih =>
    have hih := ih (fun c hc => hpre c (List.mem_cons_of_mem p hc))
    have hp : lineTerm p = false := hpre p (List.mem_cons_self p pres)
    rw [List.cons_append]
    simp only [splitAux, hih, hp]
    simp

theorem splitAux_sound (t : List Char) :
    ∀ pre yr : List Char, splitAux t = some (pre, yr) →
    ∃ mid, t = pre ++ ',' :: (mid ++ yr) ∧ (∀ c ∈ pre, lineTerm c = false) ∧
      (∀ c ∈ mid, jsWs c = true) ∧ yr.length = 4 ∧ (∀ c ∈ yr, asciiDigit c = true) := by
  induction t with
  | nil => intro pre yr h; simp [splitAux] at h
  | cons c rest ih =>
    intro pre yr h
    simp only [splitAux] at h
    cases hr : splitAux rest with
    | some pr =>
      obtain ⟨pre', yr'⟩ := pr
      rw [hr] at h
      by_cases hl : lineTerm c = true
      · simp [hl] at h
      · rw [Bool.not_eq_true] at hl
        simp only [hl, Bool.false_eq_true, if_false, Option.some.injEq, Prod.mk.injEq] at h
        obtain ⟨hpe, hye⟩ := h
        obtain ⟨mid, heq, hp, hm, h4, hd⟩ := ih pre' yr' hr
        refine ⟨mid, ?_, ?_, hm, ?_, ?_⟩
        · rw [← hpe, List.cons_append, heq, hye]
        · intro x hx
          rw [← hpe] at hx
          rcases List.mem_cons.mp hx with rfl | hx2
          · exact hl
          · exact hp x hx2
        · rw [← hye]; exact h4
        · rw [← hye]; exact hd
    | none =>
      rw [hr] at h
      by_cases hcond : (decide (c = ',') && yearSuffixOk rest) = true
      · rw [if_pos hcond] at h
        obtain ⟨hc, hys⟩ := Bool.and_eq_true_iff.mp hcond
        rw [decide_eq_true_eq] at hc
        simp only [Option.some.injEq, Prod.mk.injEq] at h
        obtain ⟨hpe, hye⟩ := h
        rw [yearSuffixOk, Bool.and_eq_true, beq_iff_eq, List.all_eq_true] at hys
        refine ⟨rest.takeWhile jsWs, ?_, ?_, ?_, ?_, ?_⟩
        · rw [← hpe, hc, List.nil_append, ← hye, List.takeWhile_append_dropWhile]
        · rw [← hpe]; intro x hx; exact absurd hx (List.not_mem_nil x)
        · intro x hx; exact List.mem_takeWhile_imp hx
        · rw [← hye]; exact hys.1
        · rw [← hye]
          exact hys.2
      · rw [if_neg hcond] at h
        exact absurd h (by simp)

theorem decodeEntF_congr : ∀ (f1 : Nat) (s : List Char) (f2 : Nat),
    s.length ≤ f1 → s.length ≤ f2 → decodeEntF f1 s = decodeEntF f2 s := by
  intro f1
  induction f1 with
  | zero =>
    intro s f2 h1 _
    have hs : s = [] := List.eq_nil_of_length_eq_zero (by omega)
    subst hs
    cases f2 with
    | zero => rfl
    | succ m => rfl
  | succ n ih =>
    intro s f2 h1 h2
    cases s with
    | nil =>
      cases f2 with
      | zero => rfl
      | succ m => rfl
    | cons c rest =>
      obtain ⟨m, rfl⟩ : ∃ m, f2 = m + 1 :=
        ⟨f2 - 1, by simp only [List.length_cons] at h2; omega⟩
      simp only [List.length_cons] at h1 h2
      simp only [decodeEntF]
      have hd : ∀ k, (rest.drop k).length ≤ rest.length := by
        intro k; simp [List.length_drop]
      split_ifs with q1 q2 q3 q4 q5
      · exact congrArg _ (ih _ m (by have := hd 5; omega) (by have := hd 5; omega))
      · exact congrArg _ (ih _ m (by have := hd 4; omega) (by have := hd 4; omega))
      · exact congrArg _ (ih _ m (by have := hd 3; omega) (by have := hd 3; omega))
      · exact congrArg _ (ih _ m (by have := hd 3; omega) (by have := hd 3; omega))
      · exact congrArg _ (ih _ m (by have := hd 5; omega) (by have := hd 5; omega))
      · exact congrArg _ (ih _ m (by omega) (by omega))

theorem decode_cons_ne_amp (c : Char) (t : List Char) (h : c ≠ '&') :
    decodeHtmlEntities (c :: t) = c :: decodeHtmlEntities t := by
  have hb : ('&' == c) = false := by
    simp only [beq_eq_false_iff_ne, ne_eq]
    exact fun he => h he.symm
  simp only [decodeHtmlEntities, List.length_cons, decodeEntF, cs, String.toList,
    List.isPrefixOf, hb, Bool.false_and, Bool.false_eq_true, if_false]

theorem decode_append_no_amp (s t : List Char) (h : ∀ c ∈ s, c ≠ '&') :
    decodeHtmlEntities (s ++ t) = s ++ decodeHtmlEntities t := by
  induction s with
  | nil => simp
  | cons c rest ih =>
    rw [List.cons_append, decode_cons_ne_amp c (rest ++ t) (h c (List.mem_cons_self c rest)),
      ih (fun x hx => h x (List.mem_cons_of_mem c hx)), List.cons_append]

theorem decode_apos (t : List Char) :
    decodeHtmlEntities (cs "&#039;" ++ t) = '\'' :: decodeHtmlEntities t := by
  have h1 : decodeHtmlEntities (cs "&#039;" ++ t) = '\'' :: decodeEntF (t.length + 5) t := by
    show decodeEntF (cs "&#039;" ++ t).length (cs "&#039;" ++ t) =
      '\'' :: decodeEntF (t.length + 5) t
    rw [show cs "&#039;" = '&' :: '#' :: '0' :: '3' :: '9' :: [';'] from rfl]
    simp [decodeEntF, cs, List.isPrefixOf]
  rw [h1, decodeEntF_congr (t.length + 5) t t.length (by omega) le_rfl]
  rfl

theorem decode_amp (t : List Char) :
    decodeHtmlEntities (cs "&amp;" ++ t) = '&' :: decodeHtmlEntities t := by
  have h1 : decodeHtmlEntities (cs "&amp;" ++ t) = '&' :: decodeEntF (t.length + 4) t := by
    show decodeEntF (cs "&amp;" ++ t).length (cs "&amp;" ++ t) =
      '&' :: decodeEntF (t.length + 4) t
    rw [show cs "&amp;" = '&' :: 'a' :: 'm' :: 'p' :: [';'] from rfl]
    simp [decodeEntF, cs, List.isPrefixOf]
  rw [h1, decodeEntF_congr (t.length + 4) t t.length (by omega) le_rfl]
  rfl

theorem decode_lt (t : List Char) :
    decodeHtmlEntities (cs "&lt;" ++ t) = '<' :: decodeHtmlEntities t := by
  have h1 : decodeHtmlEntities (cs "&lt;" ++ t) = '<' :: decodeEntF (t.length + 3) t := by
    show decodeEntF (cs "&lt;" ++ t).length (cs "&lt;" ++ t) =
      '<' :: decodeEntF (t.length + 3) t
    rw [show cs "&lt;" = '&' :: 'l' :: 't' :: [';'] from rfl]
    simp [decodeEntF, cs, List.isPrefixOf]
  rw [h1, decodeEntF_congr (t.length + 3) t t.length (by omega) le_rfl]
  rfl

theorem decode_gt (t : List Char) :
    decodeHtmlEntities (cs "&gt;" ++ t) = '>' :: decodeHtmlEntities t := by
  have h1 : decodeHtmlEntities (cs "&gt;" ++ t) = '>' :: decodeEntF (t.length + 3) t := by
    show decodeEntF (cs "&gt;" ++ t).length (cs "&gt;" ++ t) =
      '>' :: decodeEntF (t.length + 3) t
    rw [show cs "&gt;" = '&' :: 'g' :: 't' :: [';'] from rfl]
    simp [decodeEntF, cs, List.isPrefixOf]
  rw [h1, decodeEntF_congr (t.length + 3) t t.length (by omega) le_rfl]
  rfl

theorem decode_quot (t : List Char) :
    decodeHtmlEntities (cs "&quot;" ++ t) = '"' :: decodeHtmlEntities t := by
  have h1 : decodeHtmlEntities (cs "&quot;" ++ t) = '"' :: decodeEntF (t.length + 5) t := by
    show decodeEntF (cs "&quot;" ++ t).length (cs "&quot;" ++ t) =
      '"' :: decodeEntF (t.length + 5) t
    rw [show cs "&quot;" = '&' :: 'q' :: 'u' :: 'o' :: 't' :: [';'] from rfl]
    simp [decodeEntF, cs, List.isPrefixOf]
  rw [h1, decodeEntF_congr (t.length + 5) t t.length (by omega) le_rfl]
  rfl

theorem tails_not_prefix (name t : List Char) (h2 : ∀ c ∈ name, c ≠ ';')
    (h3 : ('&' :: (name ++ [';'])) ∉ entityFive) :
    (['#','0','3','9',';'].isPrefixOf (name ++ ';' :: t) = false) ∧
    (['a','m','p',';'].isPrefixOf (name ++ ';' :: t) = false) ∧
    (['l','t',';'].isPrefixOf (name ++ ';' :: t) = false) ∧
    (['g','t',';'].isPrefixOf (name ++ ';' :: t) = false) ∧
    (['q','u','o','t',';'].isPrefixOf (name ++ ';' :: t) = false) := by
  rcases name with _ | ⟨a, _ | ⟨b, _ | ⟨c, _ | ⟨d, _ | ⟨e, rest⟩⟩⟩⟩⟩
  all_goals refine ⟨?_, ?_, ?_, ?_, ?_⟩
  all_goals try simp [List.isPrefixOf]
  all_goals intros
  all_goals try intro hlast
  all_goals subst_vars
  all_goals first
  | exact h3 (by decide)
  | exact absurd rfl (h2 ';' (by simp))

theorem decode_unknown (name t : List Char) (h1 : ∀ c ∈ name, c ≠ '&')
    (h2 : ∀ c ∈ name, c ≠ ';')
    (h3 : ('&' :: (name ++ [';'])) ∉ entityFive) :
    decodeHtmlEntities ('&' :: (name ++ ';' :: t)) =
      '&' :: (name ++ ';' :: decodeHtmlEntities t) := by
  obtain ⟨q1, q2, q3, q4, q5⟩ := tails_not_prefix name t h2 h3
  have hstep : decodeHtmlEntities ('&' :: (name ++ ';' :: t)) =
      '&' :: decodeHtmlEntities (name ++ ';' :: t) := by
    show decodeEntF ('&' :: (name ++ ';' :: t)).length ('&' :: (name ++ ';' :: t)) =
      '&' :: decodeHtmlEntities (name ++ ';' :: t)
    rw [List.length_cons]
    simp only [decodeEntF, cs, String.toList, List.isPrefixOf, q1, q2, q3, q4, q5]
    simp [decodeHtmlEntities]
  rw [hstep, decode_append_no_amp name (';' :: t) h1,
    decode_cons_ne_amp ';' t (by decide)]

/-! ### Claim theorems -/

set_option maxRecDepth 40000 in
/-- Claim C1 (code bug): the spec's invariant says every Film produced by
any extractor has a non-empty title, but the feed extractor only checks
that the title *pattern* matched (`if (!titleMatch) continue`), not that
the captured text is non-empty: a feed item whose title element is empty
yields a Film whose `title` is the empty string.  This theorem evaluates
the feed parser at that failing input. -/
theorem C1_feed_empty_title :
    parseFeed (cs "<item><title></title></item>") =
      [{ title := [], year := none, rating := none, watchDate := none,
         link := none, rewatch := false }] ∧
    (parseFeed (cs "<item><title></title></item>")).any (fun f => f.title.isEmpty) = true := by
  decide

set_option maxRecDepth 40000 in
/-- Claim C2 (code bug): the spec says a failed (non-success) feed fetch is
surfaced to the caller as a failed call, but `fetchRecentActivity` never
inspects `response.ok`: even for a response with `ok = false` it parses the
body and resolves normally (`Except.ok`), here with one film parsed from
the error body. -/
theorem C2_status_ignored :
    fetchRecentActivity { ok := false, body := cs "<item><title>A</title></item>" } =
      Except.ok [{ title := cs "A", year := none, rating := none, watchDate := none,
                   link := none, rewatch := false }] := by
  calc fetchRecentActivity { ok := false, body := cs "<item><title>A</title></item>" }
      = Except.ok (parseFeed (cs "<item><title>A</title></item>")) := rfl
    _ = Except.ok [{ title := cs "A", year := none, rating := none, watchDate := none,
                     link := none, rewatch := false }] := by
        rw [show parseFeed (cs "<item><title>A</title></item>") =
          [{ title := cs "A", year := none, rating := none, watchDate := none,
             link := none, rewatch := false }] from by decide]

/-- Claim C3 counterexample: the claim says no run of more than five stars
is ever returned as a rating, but the source regex is `★+½?` (unbounded):
a description that is six stars yields a six-star rating. -/
theorem C3_six_stars_counterexample :
    ratingMatch (cs "★★★★★★") = some (cs "★★★★★★") ∧
    (cs "★★★★★★").count '★' = 6 := by
  decide

/-- Claim C3 (amended): the extracted rating is the first (leftmost)
maximal run of ONE OR MORE star glyphs, optionally followed by a half-star
glyph, and is absent when the description contains no star glyph (the
source regex `★+½?` puts no upper bound on the run length). -/
theorem C3_rating_amended :
    (∀ d : List Char, (∀ c ∈ d, c ≠ '★') → ratingMatch d = none) ∧
    (∀ (pre : List Char) (k : Nat) (post : List Char),
      (∀ c ∈ pre, c ≠ '★') → 1 ≤ k → post.head? ≠ some '★' →
      ratingMatch (pre ++ (List.replicate k '★' ++ post)) =
        some (List.replicate k '★' ++ (if post.head? = some '½' then ['½'] else []))) := by
  refine ⟨ratingNone, ?_⟩
  intro pre k post hpre hk hpost
  induction pre with
  | nil =>
    obtain ⟨m, rfl⟩ : ∃ m, k = m + 1 := ⟨k - 1, by omega⟩
    rw [List.nil_append, List.replicate_succ, List.cons_append]
    simp only [ratingMatch, if_pos rfl]
    have hs := starRun (m + 1) post hpost
    rw [List.replicate_succ, List.cons_append] at hs
    rw [hs.1, hs.2]
    simp
  | cons c rest ih =>
    have hc : c ≠ '★' := hpre c (List.mem_cons_self c rest)
    rw [List.cons_append]
    simp only [ratingMatch, if_neg hc]
    exact ih (fun x hx => hpre x (List.mem_cons_of_mem c hx))

/-- Claim C3 witness: a description whose first star run is `★★★½` yields
the rating `★★★½`. -/
theorem C3_rating_amended_witness :
    ratingMatch (cs "ab" ++ (List.replicate 3 '★' ++ cs "½x")) =
      some (List.replicate 3 '★' ++ (if (cs "½x").head? = some '½' then ['½'] else [])) :=
  C3_rating_amended.2 (cs "ab") 3 (cs "½x") (by decide) (by decide) (by decide)

/-- Claim C4: during pagination, if pages 1..k-1 succeed with non-empty
parses and page k either fails (non-success status) or parses to the empty
sequence, then the call returns exactly the concatenation of the films of
pages 1..k-1, and the requests issued are exactly pages 1..k (so no later
page is ever requested); this holds for both `fetchWatchedFilms`
(ceiling 50) and `fetchWatchlist` (ceiling 20).  No exception is possible:
the embedding is a total function. -/
theorem C4_pagination_early_stop (f : Nat → FetchResponse) (k : Nat) (h1 : 1 ≤ k)
    (hok : ∀ p, 1 ≤ p → p < k → ((f p).ok = true ∧ parseFilmsPage (f p).body ≠ []))
    (hstop : (f k).ok = false ∨ parseFilmsPage (f k).body = []) :
    (k ≤ 50 → fetchWatchedFilms f =
      (((List.range' 1 (k - 1)).map (fun p => parseFilmsPage (f p).body)).flatten,
       List.range' 1 k)) ∧
    (k ≤ 20 → fetchWatchlist f =
      (((List.range' 1 (k - 1)).map (fun p => parseFilmsPage (f p).body)).flatten,
       List.range' 1 k)) := by
  constructor
  · intro h50
    have hrun := paginateAux_run f 50 50 1 k h1 h50 (by omega) hok hstop
    rw [fetchWatchedFilms, hrun]
    congr 2
    omega
  · intro h20
    have hrun := paginateAux_run f 20 20 1 k h1 h20 (by omega) hok hstop
    rw [fetchWatchlist, hrun]
    congr 2
    omega

set_option maxRecDepth 40000 in
/-- Claim C4 witness: with page 3 empty, `fetchWatchedFilms` returns the
films of pages 1 and 2 concatenated, requests exactly pages 1, 2, 3 and
never requests page 4. -/
theorem C4_pagination_early_stop_witness :
    fetchWatchedFilms c4Pages =
      ([{ title := cs "Film A", year := none, rating := none, watchDate := none,
          link := some (cs "https://letterboxd.com/film/film-a/"), rewatch := false },
        { title := cs "Film B", year := none, rating := none, watchDate := none,
          link := some (cs "https://letterboxd.com/film/film-b/"), rewatch := false }],
       [1, 2, 3]) ∧ 4 ∉ (fetchWatchedFilms c4Pages).2 := by
  have h := (C4_pagination_early_stop c4Pages 3 (by decide)
    (by intro p hp1 hp2
        interval_cases p
        · exact ⟨by decide, by decide⟩
        · exact ⟨by decide, by decide⟩)
    (Or.inr (by decide))).1 (by decide)
  refine ⟨h.trans (by decide), ?_⟩
  rw [h]
  decide

/-- Claim C5: regardless of page content, `fetchWatchlist` never issues a
request for page 21 and `fetchWatchedFilms` never issues a request for
page 51 (per-kind ceilings 20 and 50, checked before each request). -/
theorem C5_page_ceilings : ∀ f : Nat → FetchResponse,
    21 ∉ (fetchWatchlist f).2 ∧ 51 ∉ (fetchWatchedFilms f).2 := by
  intro f
  constructor
  · intro h
    have := paginateAux_req_le f 20 20 1 21 h
    omega
  · intro h
    have := paginateAux_req_le f 50 50 1 51 h
    omega

/-- Claim C6 counterexample: the claim's segmentation pattern is
`<text>, <4 digits>` (comma and a single space); on the title `Foo,1999`
— which does not match that pattern — the claim requires the whole string
as title and no year, but the source regex `/^(.+),\s*(\d{4})$/` accepts
zero whitespace after the comma and splits it. -/
theorem C6_comma_no_space_counterexample :
    specEndsCommaSpaceYear (cs "Foo,1999") = false ∧
    splitTitleYear (cs "Foo,1999") = (cs "Foo", some (cs "1999")) ∧
    splitTitleYear (cs "Foo,1999") ≠ (cs "Foo,1999", none) := by
  decide

/-- Claim C6 (amended): if the title ends with a comma, an optional run of
whitespace, and exactly four digits — with a non-empty, line-terminator-free
prefix before the comma — then the title splits into that prefix and the
four digits; otherwise the whole string is the title and the year is
absent.  The split anchors only to the end (the rightmost such comma), so
commas earlier in the title do not trigger a split. -/
theorem C6_title_year_amended :
    (∀ text mid yr : List Char, text ≠ [] → (∀ c ∈ text, lineTerm c = false) →
      (∀ c ∈ mid, jsWs c = true) → yr.length = 4 → (∀ c ∈ yr, asciiDigit c = true) →
      splitTitleYear (text ++ ',' :: (mid ++ yr)) = (text, some yr)) ∧
    (∀ t : List Char,
      (∀ pre mid yr : List Char, t = pre ++ ',' :: (mid ++ yr) → pre ≠ [] →
        (∀ c ∈ pre, lineTerm c = false) → (∀ c ∈ mid, jsWs c = true) →
        yr.length = 4 → (∀ c ∈ yr, asciiDigit c = true) → False) →
      splitTitleYear t = (t, none)) := by
  constructor
  · intro text mid yr htext hterm hmid h4 hd
    rw [splitTitleYear, splitAux_complete text mid yr hmid h4 hd hterm]
    simp [htext]
  · intro t hno
    cases hsa : splitAux t with
    | none => rw [splitTitleYear, hsa]
    | some pr =>
      obtain ⟨pre, yr⟩ := pr
      obtain ⟨mid, heq, hp, hm, h4, hd⟩ := splitAux_sound t pre yr hsa
      by_cases hpe : pre = []
      · rw [splitTitleYear, hsa]
        simp [hpe]
      · exact absurd (hno pre mid yr heq hpe hp hm h4 hd) (fun x => x)

/-- Claim C6 witness: `I, Robot, 2004` splits at the final comma only
(the earlier comma does not trigger a split), and `Foo` (no end-anchored
match) is returned whole with no year. -/
theorem C6_title_year_amended_witness :
    splitTitleYear (cs "I, Robot" ++ ',' :: ([' '] ++ cs "2004")) =
      (cs "I, Robot", some (cs "2004")) ∧
    splitTitleYear (cs "Foo") = (cs "Foo", none) := by
  constructor
  · exact C6_title_year_amended.1 (cs "I, Robot") [' '] (cs "2004") (by decide) (by decide)
      (by decide) (by decide) (by decide)
  · refine C6_title_year_amended.2 (cs "Foo") ?_
    intro pre mid yr heq hpe _ _ h4 _
    have hlen := congrArg List.length heq
    simp only [List.length_append, List.length_cons] at hlen
    have hnz : pre.length ≠ 0 := fun hz => hpe (List.eq_nil_of_length_eq_zero hz)
    rw [h4] at hlen
    simp [cs] at hlen
    omega

/-- Claim C7: the entity decoder replaces exactly the five entities for
apostrophe, ampersand, less-than, greater-than and double-quote with their
literal characters, wherever they occur, and leaves every other entity
untouched; in particular `Am&eacute;lie &amp; Friends` decodes to
`Am&eacute;lie & Friends`.  The general statement quantifies over any
string assembled from plain characters, known entities and unknown
entities. -/
theorem C7_entity_decoder :
    (∀ toks : List EntTok, (∀ tk ∈ toks, validTok tk = true) →
      decodeHtmlEntities ((toks.map renderTok).flatten) = (toks.map decodeTok).flatten) ∧
    decodeHtmlEntities (cs "Am&eacute;lie &amp; Friends") = cs "Am&eacute;lie & Friends" := by
  constructor
  · intro toks hv
    induction toks with
    | nil => rfl
    | cons tk ts ih =>
      have hv1 := hv tk (List.mem_cons_self tk ts)
      have ihr := ih (fun x hx => hv x (List.mem_cons_of_mem tk hx))
      simp only [List.map_cons, List.flatten_cons]
      cases tk with
      | lit c =>
        have hc : c ≠ '&' := by simpa [validTok] using hv1
        simp only [renderTok, decodeTok, List.singleton_append]
        rw [decode_cons_ne_amp c _ hc, ihr]
      | known i =>
        have hi : i < 5 := by simpa [validTok] using hv1
        interval_cases i
        · rw [show renderTok (EntTok.known 0) = cs "&#039;" from rfl,
            show decodeTok (EntTok.known 0) = ['\''] from rfl, decode_apos, ihr]
          rfl
        · rw [show renderTok (EntTok.known 1) = cs "&amp;" from rfl,
            show decodeTok (EntTok.known 1) = ['&'] from rfl, decode_amp, ihr]
          rfl
        · rw [show renderTok (EntTok.known 2) = cs "&lt;" from rfl,
            show decodeTok (EntTok.known 2) = ['<'] from rfl, decode_lt, ihr]
          rfl
        · rw [show renderTok (EntTok.known 3) = cs "&gt;" from rfl,
            show decodeTok (EntTok.known 3) = ['>'] from rfl, decode_gt, ihr]
          rfl
        · rw [show renderTok (EntTok.known 4) = cs "&quot;" from rfl,
            show decodeTok (EntTok.known 4) = ['"'] from rfl, decode_quot, ihr]
          rfl
      | unknown name =>
        rw [validTok, Bool.and_eq_true, List.all_eq_true] at hv1
        obtain ⟨hall, hnm⟩ := hv1
        have h1 : ∀ c ∈ name, c ≠ '&' := by
          intro c hc
          have hx := hall c hc
          simp only [Bool.and_eq_true, bne_iff_ne, ne_eq] at hx
          exact hx.1
        have h2 : ∀ c ∈ name, c ≠ ';' := by
          intro c hc
          have hx := hall c hc
          simp only [Bool.and_eq_true, bne_iff_ne, ne_eq] at hx
          exact hx.2
        have h3 : ('&' :: (name ++ [';'])) ∉ entityFive := of_decide_eq_true hnm
        simp only [renderTok, decodeTok]
        rw [show ('&' :: (name ++ [';'])) ++ (ts.map renderTok).flatten =
          '&' :: (name ++ ';' :: (ts.map renderTok).flatten) by simp]
        rw [decode_unknown name _ h1 h2 h3, ihr]
        simp
  · decide

/-- Claim C7 witness: the token decomposition of `Am&eacute;lie &amp;
Friends` is valid and decodes as claimed. -/
theorem C7_entity_decoder_witness :
    decodeHtmlEntities ((amelieToks.map renderTok).flatten) =
      (amelieToks.map decodeTok).flatten :=
  C7_entity_decoder.1 amelieToks (by decide)

set_option maxRecDepth 400000 in
/-- Claim C8: the end-to-end feed example: one item titled
`The Matrix, 1999` with link `https://x/the-matrix/` and a description
containing `★★★★★` and `Watched on Monday June 10, 2024` and no
`Rewatched` text yields exactly the single expected Film. -/
theorem C8_matrix_end_to_end :
    parseFeed (cs "<item><title><![CDATA[The Matrix, 1999]]></title><link>https://x/the-matrix/</link><description><![CDATA[★★★★★ Watched on Monday June 10, 2024]]></description></item>") =
      [{ title := cs "The Matrix", year := some (cs "1999"), rating := some (cs "★★★★★"),
         watchDate := some (cs "June 10, 2024"), link := some (cs "https://x/the-matrix/"),
         rewatch := false }] := by
  decide

set_option maxRecDepth 40000 in
/-- Claim C9: the feed parser is a total function (it cannot raise), its
output is exactly the per-item results with the titleless items dropped,
and an item in which no title can be extracted contributes no record; the
concrete conjunct shows a titleless item being skipped while its titled
neighbour is kept. -/
theorem C9_untitled_items_skipped :
    (∀ xml : List Char, parseFeed xml = (itemsOf xml).filterMap itemToFilm) ∧
    (∀ item : List Char, feedTitleOf item = none → itemToFilm item = none) ∧
    parseFeed (cs "<item><title>A</title></item><item><link>https://x/a/</link></item>") =
      [{ title := cs "A", year := none, rating := none, watchDate := none, link := none,
         rewatch := false }] := by
  refine ⟨fun _ => rfl, ?_, by decide⟩
  intro item h
  rw [itemToFilm, h]

/-- Claim C9 witness: an item holding only a link (no title element) is
skipped. -/
theorem C9_untitled_items_skipped_witness :
    itemToFilm (cs "<link>x</link>") = none :=
  C9_untitled_items_skipped.2.1 (cs "<link>x</link>") (by decide)

/-- Claim C10 counterexample: the claim quantifies over every non-empty
`<text>`, but JavaScript `.` does not match line terminators: for
`<text>` = a newline, the title `\n,1999` is not split at all. -/
theorem C10_line_terminator_counterexample :
    splitTitleYear (cs "\n,1999") = (cs "\n,1999", none) ∧
    (cs "\n,1999", (none : Option (List Char))) ≠ (cs "\n", some (cs "1999")) := by
  decide

/-- Claim C10 (amended): for every non-empty `<text>` containing no line
terminator, a title of the form `<text>,<4 digits>` (no space after the
comma) is split into title `<text>` and year `<4 digits>`, even though the
spec's split pattern shows a comma followed by a single space. -/
theorem C10_no_space_split_amended :
    ∀ text yr : List Char, text ≠ [] → (∀ c ∈ text, lineTerm c = false) →
      yr.length = 4 → (∀ c ∈ yr, asciiDigit c = true) →
      splitTitleYear (text ++ ',' :: yr) = (text, some yr) := by
  intro text yr htext hterm h4 hd
  have hc := splitAux_complete text [] yr
    (by intro c hc; exact absurd hc (List.not_mem_nil c)) h4 hd hterm
  rw [List.nil_append] at hc
  rw [splitTitleYear, hc]
  simp [htext]

/-- Claim C10 witness: `Foo,1999` (no space after the comma) splits into
`Foo` and `1999`. -/
theorem C10_no_space_split_amended_witness :
    splitTitleYear (cs "Foo" ++ ',' :: cs "1999") = (cs "Foo", some (cs "1999")) :=
  C10_no_space_split_amended (cs "Foo") (cs "1999") (by decide) (by decide) (by decide)
    (by decide)
